import Mathlib

/- Verification of the resolution-and-layout pipeline of the meta_tft
   repository (src/scrape_meta.py and src/update_google_sheet.py).

   Python strings are modelled as lists of Unicode code points (List Char).
   The Unicode tables consulted by the source through the standard library
   (unicodedata, str.lower, str.strip) are modelled by explicit tables that
   are faithful on the Latin-1 range in which all of the data of this pipeline
   lives; code points outside the tables are treated as inert. -/

abbrev Str := List Char

/-- Code points of a Lean string literal, the model of a Python string literal. -/
def str (s : String) : Str := s.data

/-- Straight apostrophe, written numerically. -/
def apos : Char := Char.ofNat 39

/-- Code-point list of two string parts joined by a straight apostrophe. -/
def aposJoin (a b : String) : Str := a.data ++ apos :: b.data

/-- Characters stripped by Python str.strip (the ASCII and Latin-1 whitespace;
    wider Unicode space classes do not occur in the data of this pipeline). -/
def isPySpace (c : Char) : Bool :=
  c.toNat == 32 || (9 ≤ c.toNat && c.toNat ≤ 13) ||
  (28 ≤ c.toNat && c.toNat ≤ 31) || c.toNat == 133 || c.toNat == 160

/-- Model of Python str.strip(): drop leading and trailing whitespace. -/
def pyStrip (s : Str) : Str :=
  ((s.dropWhile isPySpace).reverse.dropWhile isPySpace).reverse

/-- NFKD decomposition table for the Latin-1 letters (and the no-break space)
    that the data of this pipeline can contain: code point to its decomposition. -/
def nfkdTable : List (Nat × List Nat) :=
  [(160, [32]),
   (192, [65, 768]), (193, [65, 769]), (194, [65, 770]), (195, [65, 771]),
   (196, [65, 776]), (197, [65, 778]), (199, [67, 807]),
   (200, [69, 768]), (201, [69, 769]), (202, [69, 770]), (203, [69, 776]),
   (204, [73, 768]), (205, [73, 769]), (206, [73, 770]), (207, [73, 776]),
   (209, [78, 771]),
   (210, [79, 768]), (211, [79, 769]), (212, [79, 770]), (213, [79, 771]),
   (214, [79, 776]),
   (217, [85, 768]), (218, [85, 769]), (219, [85, 770]), (220, [85, 776]),
   (221, [89, 769]),
   (224, [97, 768]), (225, [97, 769]), (226, [97, 770]), (227, [97, 771]),
   (228, [97, 776]), (229, [97, 778]), (231, [99, 807]),
   (232, [101, 768]), (233, [101, 769]), (234, [101, 770]), (235, [101, 776]),
   (236, [105, 768]), (237, [105, 769]), (238, [105, 770]), (239, [105, 776]),
   (241, [110, 771]),
   (242, [111, 768]), (243, [111, 769]), (244, [111, 770]), (245, [111, 771]),
   (246, [111, 776]),
   (249, [117, 768]), (250, [117, 769]), (251, [117, 770]), (252, [117, 776]),
   (253, [121, 769]), (255, [121, 776])]

/-- NFKD decomposition of one code point: table hit or the point itself. -/
def nfkdChar (c : Char) : List Char :=
  match nfkdTable.find? (fun e => e.1 == c.toNat) with
  | some e => e.2.map Char.ofNat
  | none => [c]

/-- Model of unicodedata.combining(c) being nonzero: the combining
    diacritical marks block, which covers every mark the table produces. -/
def isCombining (c : Char) : Bool :=
  768 ≤ c.toNat && c.toNat ≤ 879

/-- Embedding of update_google_sheet._strip_accents: NFKD-decompose,
    then drop combining marks. -/
def strip_accents (s : Str) : Str :=
  (s.flatMap nfkdChar).filter (fun c => !(isCombining c))

/-- Model of Python str.lower per code point (ASCII and Latin-1 letters). -/
def pyLower (c : Char) : Char :=
  if 65 ≤ c.toNat && c.toNat ≤ 90 then Char.ofNat (c.toNat + 32)
  else if 192 ≤ c.toNat && c.toNat ≤ 222 && c.toNat != 215 then Char.ofNat (c.toNat + 32)
  else c

/-- Characters kept by the final re.sub in _norm_key: ASCII a-z and 0-9. -/
def keepChar (c : Char) : Bool :=
  (97 ≤ c.toNat && c.toNat ≤ 122) || (48 ≤ c.toNat && c.toNat ≤ 57)

/-- Replacement of the curly right quote (U+2019) by a straight apostrophe. -/
def apRepl (c : Char) : Char := if c.toNat == 8217 then apos else c

/-- Replacement of the backtick (U+0060) by a straight apostrophe. -/
def btRepl (c : Char) : Char := if c.toNat == 96 then apos else c

/-- Embedding of update_google_sheet._norm_key. The argument none models
    Python None; the source turns None into the empty string. -/
def norm_key : Option Str → Str
  | none => []
  | some s =>
    ((strip_accents (((pyStrip s).map apRepl).map btRepl)).map pyLower).filter keepChar

/-- Per-character contribution to norm_key: apostrophe replacements, NFKD,
    combining-mark removal, lower-casing and the alphanumeric filter. -/
def canonChar (c : Char) : Str :=
  (((nfkdChar (btRepl (apRepl c))).filter (fun x => !(isCombining x))).map pyLower).filter keepChar

/-- ASCII upper-casing, used to state case-insensitivity of norm_key. -/
def asciiUpper (c : Char) : Char :=
  if 97 ≤ c.toNat && c.toNat ≤ 122 then Char.ofNat (c.toNat - 32) else c

/-- ASCII punctuation, control or whitespace characters, used to state
    punctuation-insensitivity of norm_key. -/
def isAsciiPunctOrSpace (c : Char) : Bool :=
  c.toNat ≤ 47 || (58 ≤ c.toNat && c.toNat ≤ 64) ||
  (91 ≤ c.toNat && c.toNat ≤ 96) || (123 ≤ c.toNat && c.toNat ≤ 127)

lemma char_eq_ofNat {c : Char} {n : Nat} (h : c.toNat = n) : c = Char.ofNat n := by
  rw [← h, Char.ofNat_toNat]

lemma canonChar_of_keep {c : Char} (h : keepChar c = true) : canonChar c = [c] := by
  obtain ⟨n, hn⟩ : ∃ n, c.toNat = n := ⟨_, rfl⟩
  have hb : (97 ≤ n ∧ n ≤ 122) ∨ (48 ≤ n ∧ n ≤ 57) := by
    simp only [keepChar, hn, Bool.or_eq_true, Bool.and_eq_true, decide_eq_true_eq] at h
    omega
  have hc : c = Char.ofNat n := char_eq_ofNat hn
  subst hc
  rcases hb with ⟨h1, h2⟩ | ⟨h1, h2⟩ <;> interval_cases n <;> decide

lemma canonChar_of_space {c : Char} (h : isPySpace c = true) : canonChar c = [] := by
  obtain ⟨n, hn⟩ : ∃ n, c.toNat = n := ⟨_, rfl⟩
  have hb : n = 32 ∨ (9 ≤ n ∧ n ≤ 13) ∨ (28 ≤ n ∧ n ≤ 31) ∨ n = 133 ∨ n = 160 := by
    simp only [isPySpace, hn, Bool.or_eq_true, Bool.and_eq_true, decide_eq_true_eq,
      beq_iff_eq] at h
    omega
  have hc : c = Char.ofNat n := char_eq_ofNat hn
  subst hc
  rcases hb with h | ⟨h1, h2⟩ | ⟨h1, h2⟩ | h | h
  · subst h; decide
  · interval_cases n <;> decide
  · interval_cases n <;> decide
  · subst h; decide
  · subst h; decide

lemma canonChar_of_punct {c : Char} (h : isAsciiPunctOrSpace c = true) : canonChar c = [] := by
  obtain ⟨n, hn⟩ : ∃ n, c.toNat = n := ⟨_, rfl⟩
  have hb : n ≤ 47 ∨ (58 ≤ n ∧ n ≤ 64) ∨ (91 ≤ n ∧ n ≤ 96) ∨ (123 ≤ n ∧ n ≤ 127) := by
    simp only [isAsciiPunctOrSpace, hn, Bool.or_eq_true, Bool.and_eq_true,
      decide_eq_true_eq] at h
    omega
  have hc : c = Char.ofNat n := char_eq_ofNat hn
  subst hc
  rcases hb with h1 | ⟨h1, h2⟩ | ⟨h1, h2⟩ | ⟨h1, h2⟩
  · interval_cases n <;> decide
  · interval_cases n <;> decide
  · interval_cases n <;> decide
  · interval_cases n <;> decide

lemma canonChar_asciiUpper (c : Char) : canonChar (asciiUpper c) = canonChar c := by
  by_cases h : (97 ≤ c.toNat && c.toNat ≤ 122) = true
  · obtain ⟨n, hn⟩ : ∃ n, c.toNat = n := ⟨_, rfl⟩
    have hb : 97 ≤ n ∧ n ≤ 122 := by
      simp only [hn, Bool.and_eq_true, decide_eq_true_eq] at h; exact h
    have hc : c = Char.ofNat n := char_eq_ofNat hn
    subst hc
    obtain ⟨h1, h2⟩ := hb
    interval_cases n <;> decide
  · unfold asciiUpper
    rw [if_neg h]

lemma mem_canonChar_keep {c x : Char} (h : x ∈ canonChar c) : keepChar x = true := by
  unfold canonChar at h
  exact (List.mem_filter.mp h).2

/-- The whole of norm_key on an actual string is the per-character
    canonicalization, concatenated: stripping whitespace at the ends is
    absorbed because whitespace canonicalizes to nothing. -/
lemma norm_key_eq_flatMap (s : Str) : norm_key (some s) = s.flatMap canonChar := by
  have tail_eq : ∀ l : Str,
      ((strip_accents ((l.map apRepl).map btRepl)).map pyLower).filter keepChar
        = l.flatMap canonChar := by
    intro l
    unfold strip_accents canonChar
    rw [List.map_map, List.flatMap_map, List.filter_flatMap, List.map_flatMap,
      List.filter_flatMap]
    rfl
  have space_nil : ∀ l : Str, (∀ x ∈ l, isPySpace x = true) → l.flatMap canonChar = [] := by
    intro l hl
    rw [List.flatMap_eq_nil_iff]
    intro x hx
    exact canonChar_of_space (hl x hx)
  have strip_eq : (pyStrip s).flatMap canonChar = s.flatMap canonChar := by
    unfold pyStrip
    set t := s.dropWhile isPySpace with ht
    have h1 : s.flatMap canonChar = t.flatMap canonChar := by
      conv_lhs => rw [← List.takeWhile_append_dropWhile isPySpace s]
      rw [List.flatMap_append, ← ht,
        space_nil _ (fun x hx => List.mem_takeWhile_imp hx), List.nil_append]
    have h2 : t = (t.reverse.dropWhile isPySpace).reverse
        ++ (t.reverse.takeWhile isPySpace).reverse := by
      conv_lhs => rw [← List.reverse_reverse t]
      conv_lhs => rw [← List.takeWhile_append_dropWhile isPySpace t.reverse]
      rw [List.reverse_append]
    rw [h1]
    conv_rhs => rw [h2]
    rw [List.flatMap_append,
      space_nil _ (fun x hx => List.mem_takeWhile_imp (List.mem_reverse.mp hx)),
      List.append_nil]
  show ((strip_accents (((pyStrip s).map apRepl).map btRepl)).map pyLower).filter keepChar
      = s.flatMap canonChar
  rw [tail_eq, strip_eq]

lemma flatMap_canonChar_of_keep {l : Str} (h : ∀ x ∈ l, keepChar x = true) :
    l.flatMap canonChar = l := by
  induction l with
  | nil => rfl
  | cons c t ih =>
    rw [List.flatMap_cons, canonChar_of_keep (h c (List.mem_cons_self c t)),
      ih (fun x hx => h x (List.mem_cons_of_mem c hx))]
    rfl

/-- Python dict lookup over an association list: first binding wins. -/
def dictGet (d : List (Str × Str)) (k : Str) : Option Str :=
  (d.find? (fun e => e.1 == k)).map (fun e => e.2)

/-- Dict lookup where, matching the truthiness tests of the source, an empty
    string value counts the same as an absent key. -/
def truthyGet (d : List (Str × Str)) (k : Str) : Option Str :=
  match dictGet d k with
  | some v => if v == [] then none else some v
  | none => none

/-- Embedding of update_google_sheet.ITEM_ALIASES, the static FR-to-EN
    item alias table. -/
def ITEM_ALIASES : List (Str × Str) :=
  [(str "Archange", aposJoin "Archangel" "s Staff"),
   (aposJoin "Lame d" "infini", str "Infinity Edge"),
   (str "Pistolame Hextech", str "Hextech Gunblade"),
   (str "Cape solaire", str "Sunfire Cape"),
   (str "Armure roncière", str "Bramble Vest"),
   (str "Rédemption", str "TFT_Item_Redemption"),
   (str "Redemption", str "TFT_Item_Redemption"),
   (str "Warmog", aposJoin "Warmog" "s Armor"),
   (str "Guinsoo", aposJoin "Guinsoo" "s Rageblade"),
   (str "Morello", str "Morellonomicon"),
   (str "Rabadon", aposJoin "Rabadon" "s Deathcap"),
   (str "BT", str "Bloodthirster"),
   (str "Lame funeste", str "Deathblade"),
   (str "Guardian Angel", str "TFT_Item_GuardianAngel"),
   (str "Thornmail", str "TFT_Item_BrambleVest")]

/-- Positions of a code point in the second sequence, in ascending order. -/
def charPositions (b : Str) (c : Char) : List Nat :=
  (List.range b.length).filter (fun j => b.getD j (Char.ofNat 0) == c)

/-- Autojunk rule of difflib.SequenceMatcher: in a second sequence of length
    at least 200, points occurring in more than one percent of it are dropped
    from the index. -/
def isPopular (b : Str) (c : Char) : Bool :=
  b.length ≥ 200 && (b.filter (fun x => x == c)).length > b.length / 100 + 1

/-- The b2j index of difflib.SequenceMatcher with isjunk = None. -/
def b2j (b : Str) (c : Char) : List Nat :=
  if isPopular b c then [] else charPositions b c

/-- Association-list lookup with a default, modelling dict.get(k, 0). -/
def lookupD (l : List (Nat × Nat)) (k : Nat) (d : Nat) : Nat :=
  match l.find? (fun e => e.1 == k) with
  | some e => e.2
  | none => d

/-- One row of the dynamic program inside find_longest_match: processes
    position i of the first sequence over the candidate positions js,
    returning the new j2len map and the updated (besti, bestj, bestsize). -/
def flmRow (j2len : List (Nat × Nat)) (i : Nat) (js : List Nat)
    (best : Nat × Nat × Nat) : List (Nat × Nat) × (Nat × Nat × Nat) :=
  js.foldl
    (fun (st : List (Nat × Nat) × (Nat × Nat × Nat)) j =>
      let k := (if j == 0 then 0 else lookupD j2len (j - 1) 0) + 1
      (⟨(j, k) :: st.1,
        if k > st.2.2.2 then (i + 1 - k, j + 1 - k, k) else st.2⟩ :
        List (Nat × Nat) × (Nat × Nat × Nat)))
    ([], best)

/-- Backward extension pass of find_longest_match; the first argument after
    blo is fuel, instantiated with besti, which strictly decreases. -/
def extendBack (a b : Str) (alo blo : Nat) :
    Nat → Nat → Nat → Nat → Nat × Nat × Nat
  | 0, besti, bestj, bestsize => (besti, bestj, bestsize)
  | fuel + 1, besti, bestj, bestsize =>
    if alo < besti && blo < bestj &&
        (a.getD (besti - 1) (Char.ofNat 0) == b.getD (bestj - 1) (Char.ofNat 0)) then
      extendBack a b alo blo fuel (besti - 1) (bestj - 1) (bestsize + 1)
    else (besti, bestj, bestsize)

/-- Forward extension pass of find_longest_match; fuel bounds the growth. -/
def extendFwd (a b : Str) (ahi bhi : Nat) (besti bestj : Nat) :
    Nat → Nat → Nat
  | 0, bestsize => bestsize
  | fuel + 1, bestsize =>
    if besti + bestsize < ahi && bestj + bestsize < bhi &&
        (a.getD (besti + bestsize) (Char.ofNat 0) == b.getD (bestj + bestsize) (Char.ofNat 0)) then
      extendFwd a b ahi bhi besti bestj fuel (bestsize + 1)
    else bestsize

/-- Embedding of SequenceMatcher.find_longest_match with isjunk = None: the
    junk-extension passes are no-ops because the junk set is empty, so only
    the plain extension passes are kept. -/
def find_longest_match (a b : Str) (bj : Char → List Nat) (alo ahi blo bhi : Nat) :
    Nat × Nat × Nat :=
  let step := fun (st : List (Nat × Nat) × (Nat × Nat × Nat)) (i : Nat) =>
    let js := (bj (a.getD i (Char.ofNat 0))).filter (fun j => blo ≤ j && j < bhi)
    flmRow st.1 i js st.2
  let res := (List.range' alo (ahi - alo)).foldl step ([], (alo, blo, 0))
  let best := extendBack a b alo blo res.2.1 res.2.1 res.2.2.1 res.2.2.2
  (best.1, best.2.1,
    extendFwd a b ahi bhi best.1 best.2.1 (ahi - (best.1 + best.2.2)) best.2.2)

/-- Total size of the matching blocks of SequenceMatcher.get_matching_blocks,
    by the same divide-and-conquer recursion; the fuel only bounds the depth
    and never runs out on the initial ranges. -/
def matchingSumAux (a b : Str) (bj : Char → List Nat) :
    Nat → Nat → Nat → Nat → Nat → Nat
  | 0, _, _, _, _ => 0
  | fuel + 1, alo, ahi, blo, bhi =>
    let m := find_longest_match a b bj alo ahi blo bhi
    if m.2.2 == 0 then 0
    else m.2.2 + matchingSumAux a b bj fuel alo m.1 blo m.2.1
      + matchingSumAux a b bj fuel (m.1 + m.2.2) ahi (m.2.1 + m.2.2) bhi

def matchingSum (a b : Str) : Nat :=
  matchingSumAux a b (b2j b) (a.length + b.length + 1) 0 a.length 0 b.length

/-- The similarity of SequenceMatcher.ratio as an exact rational: twice the
    matched size over the total length, and 1 when both strings are empty. -/
def simScore (a b : Str) : ℚ :=
  if a.length + b.length == 0 then 1
  else (2 * matchingSum a b : ℚ) / (a.length + b.length : ℚ)

/-- Lexicographic comparison of code-point lists, as Python compares strings. -/
def strLt : Str → Str → Bool
  | [], [] => false
  | [], _ :: _ => true
  | _ :: _, [] => false
  | x :: xs, y :: ys => if x.toNat == y.toNat then strLt xs ys else x.toNat < y.toNat

/-- Embedding of difflib.get_close_matches with n = 1 and cutoff 0.88: the
    quick-ratio prefilters are upper bounds of the ratio, so the survivors
    are exactly the candidates scoring at least the cutoff, and
    heapq.nlargest(1) picks the maximum (score, candidate) pair in Python
    tuple order. -/
def get_close_matches1 (word : Str) (possibilities : List Str) : Option Str :=
  (possibilities.foldl
    (fun (best : Option (ℚ × Str)) x =>
      let r := simScore x word
      if r < (88 : ℚ) / 100 then best
      else
        match best with
        | none => some (r, x)
        | some p => if p.1 < r ∨ (p.1 = r ∧ strLt p.2 x = true) then some (r, x) else some p)
    none).map (fun p => p.2)

def DD_CDN_BASE : Str := str "https://ddragon.leagueoflegends.com/cdn"

def METATFT_CHAMPION_CDN_BASE : Str := str "https://cdn.metatft.com/file/metatft/champions/"

/-- Direct-then-fuzzy index lookup of get_item_image_url: the direct hit on
    the normalized key, with the close-match fallback over the index keys. -/
def item_full (idx : List (Str × Str)) (k : Str) : Option Str :=
  match truthyGet idx k with
  | some f => some f
  | none =>
    match get_close_matches1 k (idx.map (fun e => e.1)) with
    | some m => truthyGet idx m
    | none => none

/-- Post-alias part of get_item_image_url: normalized lookup with fuzzy
    fallback, and on failure the log-once bookkeeping over the process-wide
    set _MISSING_ITEMS_LOGGED (modelled as the list logged). Returns the URL,
    the new logged set, and whether this call printed a diagnostic. -/
def resolve_item_tail (ver : Str) (idx : List (Str × Str)) (logged : List Str)
    (name : Str) : Str × List Str × Bool :=
  match item_full idx (norm_key (some name)) with
  | some f => (DD_CDN_BASE ++ str "/" ++ ver ++ str "/img/tft-item/" ++ f, logged, false)
  | none =>
    if name ∈ logged then ([], logged, false) else ([], name :: logged, true)

/-- Embedding of update_google_sheet.get_item_image_url, with the Data
    Dragon version and tft-item index as parameters and the process-wide
    reported-items set threaded explicitly. -/
def get_item_image_url (ver : Str) (idx : List (Str × Str)) (logged : List Str)
    (item_name : Option Str) : Str × List Str × Bool :=
  let name := pyStrip (item_name.getD [])
  if name == [] then ([], logged, false)
  else resolve_item_tail ver idx logged ((dictGet ITEM_ALIASES name).getD name)

/-- Return value of get_item_image_url; it does not depend on the logged
    set, which the lemma below records. -/
def item_url_value (ver : Str) (idx : List (Str × Str)) (item_name : Option Str) : Str :=
  (get_item_image_url ver idx [] item_name).1

lemma resolve_item_tail_fst (ver : Str) (idx : List (Str × Str))
    (l1 l2 : List Str) (name : Str) :
    (resolve_item_tail ver idx l1 name).1 = (resolve_item_tail ver idx l2 name).1 := by
  unfold resolve_item_tail
  cases item_full idx (norm_key (some name)) with
  | some f => rfl
  | none =>
    by_cases h1 : name ∈ l1 <;> by_cases h2 : name ∈ l2 <;>
      simp [h1, h2]

lemma get_item_image_url_fst (ver : Str) (idx : List (Str × Str))
    (logged : List Str) (item_name : Option Str) :
    (get_item_image_url ver idx logged item_name).1 = item_url_value ver idx item_name := by
  unfold item_url_value get_item_image_url
  by_cases h : (pyStrip (item_name.getD []) == []) = true
  · simp only [h, if_true]
  · simp only [h, if_false, Bool.false_eq_true]
    exact resolve_item_tail_fst ..

/-- Embedding of update_google_sheet.get_champion_image_url, with the two
    character catalogs (MetaTFT teamplanner and Data Dragon) and the Data
    Dragon version as parameters. -/
def get_champion_image_url (tftIdx ddIdx : List (Str × Str)) (ver : Str)
    (champion : Option Str) : Str :=
  let champ := pyStrip (champion.getD [])
  if champ == [] then []
  else
    match truthyGet tftIdx (norm_key (some champ)) with
    | some cid => METATFT_CHAMPION_CDN_BASE ++ cid.map pyLower ++ str ".png"
    | none =>
      match truthyGet ddIdx (norm_key (some champ)) with
      | some cid => DD_CDN_BASE ++ str "/" ++ ver ++ str "/img/champion/" ++ cid ++ str ".png"
      | none => []

/-- Embedding of update_google_sheet.get_synergy_image_url. -/
def get_synergy_image_url (synergy_name : Option Str) : Str :=
  let name := (pyStrip (synergy_name.getD [])).map pyLower
  if name == [] then []
  else str "https://cdn.metatft.com/file/metatft/traits/" ++ norm_key (some name) ++ str ".png"

/-- Decimal digits of a natural number, modelling Python str(int). -/
def natToStr (n : Nat) : Str := (toString n).data

/-- Embedding of update_google_sheet.create_image_formula. -/
def create_image_formula (url : Str) (size : Option Nat) : Str :=
  match size with
  | some s =>
    str "=IMAGE(\"" ++ url ++ str "\"; 4; " ++ natToStr s ++ str "; " ++ natToStr s ++ str ")"
  | none => str "=IMAGE(\"" ++ url ++ str "\")"

/-- Champion record inside a meta entry, as read by the layout loop:
    c["name"] is required, c.get("stars", 2) may be absent. -/
structure ChampIn where
  name : Str
  stars : Option Nat
deriving DecidableEq

/-- Champion record in champions_db, as read through db_info.get("cost", 1)
    and db_info.get("items", []): both keys may be absent. -/
structure DbInfo where
  cost : Option Nat
  items : Option (List Str)
deriving DecidableEq

/-- Lookup in champions_db, modelling champions_db.get(name, {}). -/
def dbGet (db : List (Str × DbInfo)) (k : Str) : Option DbInfo :=
  (db.find? (fun e => e.1 == k)).map (fun e => e.2)

/-- Enriched champion as built by the layout loop. -/
structure Enriched where
  name : Str
  cost : Nat
  stars : Nat
  items : List Str
deriving DecidableEq

/-- Enrichment of one champion record through champions_db with the default values of the source: cost 1, stars 2, empty item list. -/
def enrichChamp (db : List (Str × DbInfo)) (c : ChampIn) : Enriched :=
  let info := dbGet db c.name
  { name := c.name
    cost := ((info.map (fun i => i.cost)).getD none).getD 1
    stars := c.stars.getD 2
    items := ((info.map (fun i => i.items)).getD none).getD [] }

/-- One meta-list entry, with every field read through entry.get modelled as
    optional; synergies may be either a string or a list, as in the source. -/
structure MetaEntry where
  classement : Option Str
  compo : Option Str
  early_chercher : Option Str
  carries : Option Str
  synergies : Option (Sum Str (List Str))
  champions : Option (List ChampIn)
deriving DecidableEq

/-- Synergy list of an entry: a string value is split on the slash, its parts
    stripped and the empty ones dropped; a list value is taken as is. -/
def synList (e : MetaEntry) : List Str :=
  match e.synergies.getD (Sum.inr []) with
  | Sum.inl s => ((s.splitOn (Char.ofNat 47)).map pyStrip).filter (fun x => !(x == []))
  | Sum.inr l => l

/-- Stable ascending sort by cost, modelling list.sort(key=lambda x: x["cost"]).
    The sort of Python is stable; a stable sort is extensionally unique, and the
    sortedness, permutation and stability theorems below pin this down. -/
def sortByCost (l : List Enriched) : List Enriched :=
  l.insertionSort (fun a b => a.cost ≤ b.cost)

/-- Enriched, cost-sorted and truncated champion list of one entry. -/
def enrichedChamps (db : List (Str × DbInfo)) (maxChamps : Nat) (e : MetaEntry) :
    List Enriched :=
  (sortByCost ((e.champions.getD []).map (enrichChamp db))).take maxChamps

/-- Greatest item count over the champions of a block, with default 0. -/
def maxItemsInComp (champs : List Enriched) : Nat :=
  (champs.map (fun c => c.items.length)).foldr max 0

/-- Block height of one entry: max(2 + max items, 2 * synergy count). -/
def blockHeight (db : List (Str × DbInfo)) (maxChamps : Nat) (e : MetaEntry) : Nat :=
  max (2 + maxItemsInComp (enrichedChamps db maxChamps e)) ((synList e).length * 2)

/-- Writes the cells of a list one after another starting at a column,
    skipping the positions whose value is none, as the enumerate loops of the source with a conditional row[col] assignment do. -/
def setEach (row : List Str) (start : Nat) : List (Option Str) → List Str
  | [] => row
  | c :: cs =>
    setEach (match c with | some v => row.set start v | none => row) (start + 1) cs

/-- External catalogs consumed by the pipeline: the Data Dragon version, the
    MetaTFT and Data Dragon character indexes and the tft-item index. -/
structure Catalogs where
  ver : Str
  tftIdx : List (Str × Str)
  ddIdx : List (Str × Str)
  itemIdx : List (Str × Str)

/-- Portrait cell of one champion in the image row. -/
def portraitCell (cats : Catalogs) (c : Enriched) : Option Str :=
  let url := get_champion_image_url cats.tftIdx cats.ddIdx cats.ver (some c.name)
  if url == [] then none else some (create_image_formula url none)

/-- Fixed-column part of the image row: block texts and first synergy icon. -/
def rowImageBase (totalCols : Nat) (e : MetaEntry) (syns : List Str) : List Str :=
  let row := List.replicate totalCols ([] : Str)
  let row := row.set 0 (e.classement.getD [])
  let row := row.set 1 (e.compo.getD [])
  let row := row.set 2 (e.early_chercher.getD [])
  let row := row.set 3 (e.carries.getD [])
  match syns with
  | [] => row
  | s0 :: _ =>
    let u := get_synergy_image_url (some s0)
    row.set 4 (if u == [] then [] else create_image_formula u (some 40))

/-- The image row of a block: fixed-column texts, first synergy icon, then
    one portrait per champion. -/
def buildRowImage (cats : Catalogs) (totalCols : Nat) (e : MetaEntry)
    (syns : List Str) (champs : List Enriched) : List Str :=
  setEach (rowImageBase totalCols e syns) 5 (champs.map (portraitCell cats))

/-- Star glyphs of a champion, modelling the Python string repetition. -/
def starGlyphs (n : Nat) : Str := (List.replicate n (str "⭐")).flatten

/-- Fixed-column part of the name row: the first synergy label. -/
def rowNamesBase (totalCols : Nat) (syns : List Str) : List Str :=
  let row := List.replicate totalCols ([] : Str)
  match syns with
  | [] => row
  | s0 :: _ => row.set 4 s0

/-- The name row of a block: first synergy label, then one name-plus-stars
    cell per champion. -/
def buildRowNames (totalCols : Nat) (syns : List Str) (champs : List Enriched) : List Str :=
  setEach (rowNamesBase totalCols syns) 5
    (champs.map (fun c => some (c.name ++ str "\n" ++ starGlyphs c.stars)))

/-- Item cell of one champion in extra row r. -/
def itemCell (cats : Catalogs) (r : Nat) (c : Enriched) : Option Str :=
  if r < c.items.length then
    let iu := item_url_value cats.ver cats.itemIdx (some (c.items.getD r []))
    if iu == [] then none else some (create_image_formula iu none)
  else none

/-- Extra row r of a block (r counts from 0 below the name row): further
    synergy icon and label rows interleaved two per synergy, and the r-th
    item of each champion. -/
def rowExtraBase (totalCols : Nat) (syns : List Str) (r : Nat) : List Str :=
  let row := List.replicate totalCols ([] : Str)
  let synIdx := (r + 2) / 2
  let isNom := r % 2 == 1
  if synIdx < syns.length then
    if isNom then row.set 4 (syns.getD synIdx [])
    else
      let u := get_synergy_image_url (some (syns.getD synIdx []))
      row.set 4 (if u == [] then [] else create_image_formula u (some 40))
  else row

def buildRowExtra (cats : Catalogs) (totalCols : Nat) (syns : List Str)
    (champs : List Enriched) (r : Nat) : List Str :=
  setEach (rowExtraBase totalCols syns r) 5 (champs.map (itemCell cats r))

/-- All rows of one composition block, in sheet order. -/
def compRows (cats : Catalogs) (db : List (Str × DbInfo)) (maxChamps totalCols : Nat)
    (e : MetaEntry) : List (List Str) :=
  let champs := enrichedChamps db maxChamps e
  let syns := synList e
  buildRowImage cats totalCols e syns champs
    :: buildRowNames totalCols syns champs
    :: (List.range (blockHeight db maxChamps e - 2)).map (buildRowExtra cats totalCols syns champs)

/-- The per-entry loop of update_google_sheet: emits the rows of each block and
    records (row_start, block_height, enriched champions), with row numbers
    1-indexed as in the Sheets API wrapper. -/
def layoutLoop (cats : Catalogs) (db : List (Str × DbInfo)) (maxChamps totalCols : Nat) :
    List MetaEntry → Nat → List (List Str) × List (Nat × Nat × List Enriched)
  | [], _ => ([], [])
  | e :: es, cur =>
    let h := blockHeight db maxChamps e
    let rest := layoutLoop cats db maxChamps totalCols es (cur + h)
    (compRows cats db maxChamps totalCols e ++ rest.1,
      (cur, h, enrichedChamps db maxChamps e) :: rest.2)

/-- Greatest champion count over the meta list, with default 0. -/
def maxChampsData (meta : List MetaEntry) : Nat :=
  (meta.map (fun e => (e.champions.getD []).length)).foldr max 0

/-- The header row of the sheet. -/
def buildHeader (totalCols : Nat) : List Str :=
  let row := List.replicate totalCols ([] : Str)
  let row := row.set 0 (str "Classement méta")
  let row := row.set 1 (str "Compo")
  let row := row.set 2 (str "Early à chercher")
  let row := row.set 3 (str "Carries")
  let row := row.set 4 (str "Synergies")
  row.set 5 (str "Champions / Items préférés")

/-- Result of the pure layout phase of update_google_sheet: the cell grid
    written via worksheet.update, and the block records driving the styling
    and merge requests. -/
structure LayoutResult where
  rows : List (List Str)
  blocks : List (Nat × Nat × List Enriched)
deriving DecidableEq

/-- The layout phase of update_google_sheet as a function of the YAML data
    (champions_db and meta list), the configured minimum champion-column
    count, and the external catalogs. -/
def update_google_sheet_layout (cats : Catalogs) (db : List (Str × DbInfo))
    (meta : List MetaEntry) (minChampsFloor : Nat) : LayoutResult :=
  let maxChamps := max (maxChampsData meta) minChampsFloor
  let totalCols := 6 + maxChamps - 1
  let body := layoutLoop cats db maxChamps totalCols meta 2
  ⟨buildHeader totalCols :: body.1, body.2⟩

/-- Zero-based half-open cell range of a Sheets API request. -/
structure GridRange where
  startRow : Nat
  endRow : Nat
  startCol : Nat
  endCol : Nat
deriving DecidableEq

/-- The four per-block vertical merges the source issues, one per fixed
    column A to D; the synergies column E is deliberately left unmerged. -/
def blockMergeRanges (rowStart height : Nat) : List GridRange :=
  (List.range 4).map (fun c => ⟨rowStart - 1, rowStart - 1 + height, c, c + 1⟩)

/-- Every mergeCells request issued by update_google_sheet, in order: the
    header merge across the champion columns, then the per-block merges. -/
def update_google_sheet_merges (totalCols : Nat)
    (blocks : List (Nat × Nat × List Enriched)) : List GridRange :=
  ⟨0, 1, 5, totalCols⟩ :: blocks.foldr (fun b acc => blockMergeRanges b.1 b.2.1 ++ acc) []

/-- Meta tiers, ordered best to worst. -/
inductive Tier where
  | SPlus
  | S
  | APlus
  | A
  | B
deriving DecidableEq

/-- Modelled from the spec: the tier classifier of spec section 4.4. The
    thresholds exist in the source only as prose inside the OpenAI prompt of
    scrape_meta.generate_yaml_with_openai (lines 158-164); no executable
    classifier exists in the repository, so this follows the table of the spec,
    with scores as exact rationals. -/
def classify (avgPlace : ℚ) : Tier :=
  if avgPlace < 4.15 then Tier.SPlus
  else if avgPlace < 4.25 then Tier.S
  else if avgPlace < 4.35 then Tier.APlus
  else if avgPlace < 4.45 then Tier.A
  else Tier.B

/-- Stated from the wording of the spec for claim C1: the greatest number of
    resolved items among the champions of a block, items that fail resolution
    being dropped before counting. -/
def maxResolvedItems (cats : Catalogs) (champs : List Enriched) : Nat :=
  (champs.map (fun c =>
    (c.items.filter
      (fun it => !(item_url_value cats.ver cats.itemIdx (some it) == []))).length)).foldr max 0

lemma canonChar_strip (c : Char) :
    ((nfkdChar c).filter (fun x => !(isCombining x))).flatMap canonChar = canonChar c := by
  cases h : nfkdTable.find? (fun e => e.1 == c.toNat) with
  | none =>
    have hdec : nfkdChar c = [c] := by unfold nfkdChar; rw [h]
    rw [hdec]
    by_cases hc : isCombining c = true
    · obtain ⟨n, hn⟩ : ∃ n, c.toNat = n := ⟨_, rfl⟩
      have hb : 768 ≤ n ∧ n ≤ 879 := by
        simp only [isCombining, hn, Bool.and_eq_true, decide_eq_true_eq] at hc
        exact hc
      rw [char_eq_ofNat hn]
      obtain ⟨h1, h2⟩ := hb
      interval_cases n <;> decide
    · simp only [Bool.not_eq_true] at hc
      rw [List.filter_cons_of_pos (by simp [hc]), List.filter_nil]
      exact List.flatMap_singleton canonChar c
  | some e =>
    have hmem := List.mem_of_find?_eq_some h
    have hkey := List.find?_some h
    fin_cases hmem <;>
      (simp only [beq_iff_eq] at hkey
       rw [char_eq_ofNat hkey.symm]
       decide)

lemma canonChar_pyLower (c : Char) : canonChar (pyLower c) = canonChar c := by
  obtain ⟨n, hn⟩ : ∃ n, c.toNat = n := ⟨_, rfl⟩
  by_cases h1 : 65 ≤ n ∧ n ≤ 90
  · rw [char_eq_ofNat hn]
    obtain ⟨ha, hb⟩ := h1
    interval_cases n <;> decide
  · by_cases h2 : 192 ≤ n ∧ n ≤ 222
    · rw [char_eq_ofNat hn]
      obtain ⟨ha, hb⟩ := h2
      interval_cases n <;> decide
    · have hl : pyLower c = c := by
        unfold pyLower
        split_ifs with ha hb
        · simp only [hn, Bool.and_eq_true, decide_eq_true_eq] at ha
          exact absurd ha h1
        · simp only [hn, Bool.and_eq_true, decide_eq_true_eq, bne_iff_ne] at hb
          exact absurd hb.1 h2
        · rfl
      rw [hl]

/-- C4: key normalization is total and deterministic, idempotent on every
    string, maps None and the empty string to the empty string, and is
    insensitive to case, accents and punctuation or whitespace on every
    input: the key is invariant under ASCII upper-casing, under removal of
    ASCII punctuation, control and whitespace characters, under stripping
    the accents of any input, and under lower-casing any input through the
    modelled Latin-1 case table. -/
theorem C4_norm_key_idempotent_insensitive :
    (∀ s : Str, norm_key (some (norm_key (some s))) = norm_key (some s)) ∧
    norm_key none = [] ∧
    norm_key (some []) = [] ∧
    (∀ s : Str, norm_key (some (s.map asciiUpper)) = norm_key (some s)) ∧
    (∀ s : Str,
      norm_key (some (s.filter (fun c => !(isAsciiPunctOrSpace c)))) = norm_key (some s)) ∧
    (∀ s : Str, norm_key (some (strip_accents s)) = norm_key (some s)) ∧
    (∀ s : Str, norm_key (some (s.map pyLower)) = norm_key (some s)) ∧
    norm_key (some (str "Rédemption")) = norm_key (some (str "redemption")) := by
  refine ⟨?_, rfl, by decide, ?_, ?_, ?_, ?_, by decide⟩
  · intro s
    rw [norm_key_eq_flatMap, norm_key_eq_flatMap]
    apply flatMap_canonChar_of_keep
    intro x hx
    obtain ⟨a, _, hxa⟩ := List.mem_flatMap.mp hx
    exact mem_canonChar_keep hxa
  · intro s
    rw [norm_key_eq_flatMap, norm_key_eq_flatMap, List.flatMap_map]
    simp only [canonChar_asciiUpper]
  · intro s
    rw [norm_key_eq_flatMap, norm_key_eq_flatMap]
    induction s with
    | nil => rfl
    | cons c t ih =>
      by_cases h : isAsciiPunctOrSpace c = true
      · rw [List.filter_cons_of_neg (by simp [h]), List.flatMap_cons,
          canonChar_of_punct h, List.nil_append, ih]
      · rw [List.filter_cons_of_pos (by simp [h]), List.flatMap_cons, List.flatMap_cons, ih]
  · intro s
    rw [norm_key_eq_flatMap, norm_key_eq_flatMap]
    unfold strip_accents
    rw [List.filter_flatMap, List.flatMap_assoc]
    simp only [canonChar_strip]
  · intro s
    rw [norm_key_eq_flatMap, norm_key_eq_flatMap, List.flatMap_map]
    simp only [canonChar_pyLower]

/-- C3: tier classification is total on rational scores, its bands are
    half-open on the lower, inclusive bound with no gaps and no overlaps,
    and the four boundary examples evaluate as the spec states. -/
theorem C3_classify_total_boundary_exact :
    (∀ x : ℚ,
      (classify x = Tier.SPlus ↔ x < 4.15) ∧
      (classify x = Tier.S ↔ 4.15 ≤ x ∧ x < 4.25) ∧
      (classify x = Tier.APlus ↔ 4.25 ≤ x ∧ x < 4.35) ∧
      (classify x = Tier.A ↔ 4.35 ≤ x ∧ x < 4.45) ∧
      (classify x = Tier.B ↔ 4.45 ≤ x)) ∧
    classify 4.15 = Tier.S ∧ classify 4.149999 = Tier.SPlus ∧
    classify 4.45 = Tier.B ∧ classify 4.449999 = Tier.A := by
  refine ⟨fun x => ?_, by norm_num [classify], by norm_num [classify],
    by norm_num [classify], by norm_num [classify]⟩
  unfold classify
  split_ifs with h1 h2 h3 h4 <;>
    refine ⟨⟨fun hh => ?_, fun hh => ?_⟩, ⟨fun hh => ?_, fun hh => ?_⟩,
      ⟨fun hh => ?_, fun hh => ?_⟩, ⟨fun hh => ?_, fun hh => ?_⟩,
      ⟨fun hh => ?_, fun hh => ?_⟩⟩ <;>
    first
      | rfl
      | linarith
      | (constructor <;> linarith)
      | (exfalso; linarith)
      | (exfalso; rcases hh with ⟨hh1, hh2⟩; linarith)
      | (simp at hh)

lemma get_item_image_url_some (ver : Str) (idx : List (Str × Str)) (logged : List Str)
    (s : Str) (h : (pyStrip s == []) = false) :
    get_item_image_url ver idx logged (some s)
      = resolve_item_tail ver idx logged ((dictGet ITEM_ALIASES (pyStrip s)).getD (pyStrip s)) := by
  simp [get_item_image_url, h]

/-- C5: a raw item name present verbatim in the static alias table resolves
    exactly as its alias target does, for every catalog state and logging
    state: the alias substitution precedes normalization, direct lookup and
    fuzzy matching, so the raw form itself is never matched against the
    catalog. -/
theorem C5_alias_precedence (ver : Str) (idx : List (Str × Str)) (logged : List Str)
    (raw target : Str) (h : (raw, target) ∈ ITEM_ALIASES) :
    get_item_image_url ver idx logged (some raw)
      = get_item_image_url ver idx logged (some target) := by
  fin_cases h <;>
    (rw [get_item_image_url_some _ _ _ _ (by decide),
       get_item_image_url_some _ _ _ _ (by decide)]
     exact congrArg (resolve_item_tail ver idx logged) (by decide))

/-- Witness for C5 at the alias pair for Rabadon. -/
theorem C5_alias_precedence_witness :
    (str "Rabadon", aposJoin "Rabadon" "s Deathcap") ∈ ITEM_ALIASES ∧
    get_item_image_url (str "15.1.1") [] [] (some (str "Rabadon"))
      = get_item_image_url (str "15.1.1") [] [] (some (aposJoin "Rabadon" "s Deathcap")) :=
  ⟨by decide, C5_alias_precedence _ _ _ _ _ (by decide)⟩

lemma resolve_item_tail_subset (ver : Str) (idx : List (Str × Str))
    (logged : List Str) (name : Str) :
    logged ⊆ (resolve_item_tail ver idx logged name).2.1 := by
  unfold resolve_item_tail
  cases item_full idx (norm_key (some name)) with
  | some f => exact fun a ha => ha
  | none =>
    by_cases h : name ∈ logged
    · simp [h]
    · simp only [if_neg h]
      exact List.subset_cons_self _ _

lemma resolve_item_tail_no_reemit (ver : Str) (idx : List (Str × Str))
    (logged l2 : List Str) (name : Str)
    (h : (resolve_item_tail ver idx logged name).2.1 ⊆ l2) :
    (resolve_item_tail ver idx l2 name).2.2 = false := by
  unfold resolve_item_tail at h ⊢
  cases hf : item_full idx (norm_key (some name)) with
  | some f => simp [hf]
  | none =>
    simp only [hf] at h
    have hm : name ∈ l2 := by
      by_cases hl : name ∈ logged
      · simp only [if_pos hl] at h
        exact h hl
      · simp only [if_neg hl] at h
        exact h (List.mem_cons_self name logged)
    simp [hm]

/-- C6 amended: item resolution is total; None and trimmed-empty input
    return the unresolved empty URL with no diagnostic and no state change;
    the reported-items set only grows; and once a call for a literal input
    has completed, any later call for the same literal input, in that state
    or any larger one, emits no diagnostic, so the diagnostic fires at most
    once per distinct literal input per process lifetime. The recorded name
    is the trimmed, alias-substituted, still pre-normalization name. -/
theorem C6_unresolved_logged_once :
    (∀ (ver : Str) (idx : List (Str × Str)) (logged : List Str),
      get_item_image_url ver idx logged none = ([], logged, false)) ∧
    (∀ (ver : Str) (idx : List (Str × Str)) (logged : List Str) (s : Str),
      pyStrip s = [] → get_item_image_url ver idx logged (some s) = ([], logged, false)) ∧
    (∀ (ver : Str) (idx : List (Str × Str)) (logged : List Str) (x : Option Str),
      logged ⊆ (get_item_image_url ver idx logged x).2.1) ∧
    (∀ (ver : Str) (idx : List (Str × Str)) (logged l2 : List Str) (x : Option Str),
      (get_item_image_url ver idx logged x).2.1 ⊆ l2 →
      (get_item_image_url ver idx l2 x).2.2 = false) := by
  refine ⟨fun ver idx logged => rfl, fun ver idx logged s h => ?_, ?_, ?_⟩
  · simp [get_item_image_url, h]
  · intro ver idx logged x
    unfold get_item_image_url
    by_cases h : (pyStrip (x.getD []) == []) = true
    · simp [h]
    · simp only [Bool.not_eq_true] at h
      simp only [h, Bool.false_eq_true, if_false]
      exact resolve_item_tail_subset ..
  · intro ver idx logged l2 x h
    unfold get_item_image_url at h ⊢
    by_cases hs : (pyStrip (x.getD []) == []) = true
    · simp [hs]
    · simp only [Bool.not_eq_true] at hs
      simp only [hs, Bool.false_eq_true, if_false] at h ⊢
      exact resolve_item_tail_no_reemit _ _ _ _ _ h

/-- Witness for C6 at concrete inputs: an unknown item against an empty
    catalog, first in the empty state, then in the state the first call
    produced. -/
theorem C6_unresolved_logged_once_witness :
    get_item_image_url (str "15.1.1") [] [] none = ([], [], false) ∧
    pyStrip (str "  ") = [] ∧
    get_item_image_url (str "15.1.1") [] [] (some (str "  ")) = ([], [], false) ∧
    ([] : List Str) ⊆ (get_item_image_url (str "15.1.1") [] [] (some (str "Foo"))).2.1 ∧
    (get_item_image_url (str "15.1.1") []
      (get_item_image_url (str "15.1.1") [] [] (some (str "Foo"))).2.1
      (some (str "Foo"))).2.2 = false :=
  ⟨C6_unresolved_logged_once.1 _ _ _,
   by decide,
   C6_unresolved_logged_once.2.1 _ _ _ _ (by decide),
   C6_unresolved_logged_once.2.2.1 _ _ _ _,
   C6_unresolved_logged_once.2.2.2 _ _ _ _ _ (fun a ha => ha)⟩

/-- C6 counterexample to the claim as stated: the name recorded in the
    process-wide set is not the original literal input; it is the trimmed,
    alias-substituted name. For the input " Rabadon " with an empty item
    catalog the recorded name is the alias target, and neither the
    original input nor its trimmed form is in the set. -/
theorem C6_records_aliased_name_counterexample :
    (get_item_image_url (str "15.1.1") [] [] (some (str " Rabadon "))).2
        = ([aposJoin "Rabadon" "s Deathcap"], true) ∧
    ¬(str " Rabadon " ∈ (get_item_image_url (str "15.1.1") [] []
        (some (str " Rabadon "))).2.1) ∧
    ¬(str "Rabadon" ∈ (get_item_image_url (str "15.1.1") [] []
        (some (str " Rabadon "))).2.1) := by
  refine ⟨by decide, by decide, by decide⟩

/-- C9: the layout phase is deterministic: it is a pure function of the
    parsed composition data and the catalogs, so two runs on identical
    input produce identical grids and block boundaries, and the one piece
    of process-wide mutable state, the reported-items set, never influences
    a returned URL. -/
theorem C9_layout_deterministic :
    (∀ (cats : Catalogs) (db : List (Str × DbInfo)) (meta : List MetaEntry) (floor : Nat),
      update_google_sheet_layout cats db meta floor
        = update_google_sheet_layout cats db meta floor) ∧
    (∀ (ver : Str) (idx : List (Str × Str)) (l1 l2 : List Str) (x : Option Str),
      (get_item_image_url ver idx l1 x).1 = (get_item_image_url ver idx l2 x).1) := by
  refine ⟨fun _ _ _ _ => rfl, fun ver idx l1 l2 x => ?_⟩
  rw [get_item_image_url_fst, get_item_image_url_fst]

lemma length_setEach : ∀ (cells : List (Option Str)) (row : List Str) (start : Nat),
    (setEach row start cells).length = row.length := by
  intro cells
  induction cells with
  | nil => intro row start; rfl
  | cons c cs ih =>
    intro row start
    cases c with
    | some v =>
      show (setEach (row.set start v) (start + 1) cs).length = row.length
      rw [ih, List.length_set]
    | none =>
      show (setEach row (start + 1) cs).length = row.length
      exact ih row (start + 1)

lemma setEach_getElem?_lt : ∀ (cells : List (Option Str)) (row : List Str) (start i : Nat),
    i < start → (setEach row start cells)[i]? = row[i]? := by
  intro cells
  induction cells with
  | nil => intro row start i _; rfl
  | cons c cs ih =>
    intro row start i h
    cases c with
    | some v =>
      show (setEach (row.set start v) (start + 1) cs)[i]? = row[i]?
      rw [ih _ _ _ (Nat.lt_succ_of_lt h), List.getElem?_set_ne (by omega)]
    | none =>
      show (setEach row (start + 1) cs)[i]? = row[i]?
      exact ih _ _ _ (Nat.lt_succ_of_lt h)

lemma setEach_getElem?_at : ∀ (cells : List (Option Str)) (row : List Str) (start i : Nat),
    i < cells.length → start + cells.length ≤ row.length →
    (setEach row start cells)[start + i]?
      = (cells.getD i none).elim (row[start + i]?) some := by
  intro cells
  induction cells with
  | nil => intro row start i h _; simp at h
  | cons c cs ih =>
    intro row start i hi hlen
    have hlt : start < row.length := by
      simp only [List.length_cons] at hlen; omega
    cases i with
    | zero =>
      cases c with
      | some v =>
        show (setEach (row.set start v) (start + 1) cs)[start]?
          = ((some v :: cs).getD 0 none).elim (row[start]?) some
        rw [setEach_getElem?_lt cs _ _ _ (by omega : start < start + 1),
          List.getElem?_set_self hlt]
        rfl
      | none =>
        show (setEach row (start + 1) cs)[start]?
          = ((none :: cs).getD 0 none).elim (row[start]?) some
        rw [setEach_getElem?_lt cs _ _ _ (by omega : start < start + 1)]
        rfl
    | succ j =>
      have hj : j < cs.length := by
        simp only [List.length_cons] at hi; omega
      have harith : start + (j + 1) = (start + 1) + j := by omega
      cases c with
      | some v =>
        show (setEach (row.set start v) (start + 1) cs)[start + (j + 1)]? = _
        rw [harith, ih _ _ _ hj (by rw [List.length_set]; simp only [List.length_cons] at hlen; omega)]
        have : (row.set start v)[start + 1 + j]? = row[start + 1 + j]? :=
          List.getElem?_set_ne (by omega)
        rw [this]
        have harith2 : start + 1 + j = start + (j + 1) := by omega
        rw [harith2]
        rfl
      | none =>
        show (setEach row (start + 1) cs)[start + (j + 1)]? = _
        rw [harith, ih _ _ _ hj (by simp only [List.length_cons] at hlen; omega)]
        have harith2 : start + 1 + j = start + (j + 1) := by omega
        rw [harith2]
        rfl

lemma length_rowImageBase (totalCols : Nat) (e : MetaEntry) (syns : List Str) :
    (rowImageBase totalCols e syns).length = totalCols := by
  unfold rowImageBase
  cases syns <;> simp

lemma length_rowNamesBase (totalCols : Nat) (syns : List Str) :
    (rowNamesBase totalCols syns).length = totalCols := by
  unfold rowNamesBase
  cases syns <;> simp

lemma length_rowExtraBase (totalCols : Nat) (syns : List Str) (r : Nat) :
    (rowExtraBase totalCols syns r).length = totalCols := by
  unfold rowExtraBase
  dsimp only
  split
  · split <;> simp
  · simp

lemma rowImageBase_getElem?_ge5 (totalCols : Nat) (e : MetaEntry) (syns : List Str)
    (j : Nat) (h5 : 5 ≤ j) :
    (rowImageBase totalCols e syns)[j]? = (List.replicate totalCols ([] : Str))[j]? := by
  unfold rowImageBase
  cases syns with
  | nil =>
    show (((((List.replicate totalCols ([] : Str)).set 0 (e.classement.getD [])).set 1
        (e.compo.getD [])).set 2 (e.early_chercher.getD [])).set 3 (e.carries.getD []))[j]? = _
    rw [List.getElem?_set_ne (by omega), List.getElem?_set_ne (by omega),
      List.getElem?_set_ne (by omega), List.getElem?_set_ne (by omega)]
  | cons s0 rest =>
    show ((((((List.replicate totalCols ([] : Str)).set 0 (e.classement.getD [])).set 1
        (e.compo.getD [])).set 2 (e.early_chercher.getD [])).set 3 (e.carries.getD [])).set 4 _)[j]? = _
    rw [List.getElem?_set_ne (by omega), List.getElem?_set_ne (by omega),
      List.getElem?_set_ne (by omega), List.getElem?_set_ne (by omega),
      List.getElem?_set_ne (by omega)]

lemma rowNamesBase_getElem?_ge5 (totalCols : Nat) (syns : List Str)
    (j : Nat) (h5 : 5 ≤ j) :
    (rowNamesBase totalCols syns)[j]? = (List.replicate totalCols ([] : Str))[j]? := by
  unfold rowNamesBase
  cases syns with
  | nil => rfl
  | cons s0 rest =>
    show ((List.replicate totalCols ([] : Str)).set 4 s0)[j]? = _
    rw [List.getElem?_set_ne (by omega)]

lemma rowExtraBase_getElem?_ge5 (totalCols : Nat) (syns : List Str) (r : Nat)
    (j : Nat) (h5 : 5 ≤ j) :
    (rowExtraBase totalCols syns r)[j]? = (List.replicate totalCols ([] : Str))[j]? := by
  unfold rowExtraBase
  dsimp only
  split
  · split
    · exact List.getElem?_set_ne (by omega)
    · exact List.getElem?_set_ne (by omega)
  · rfl

lemma sortByCost_sorted (l : List Enriched) :
    (sortByCost l).Pairwise (fun a b => a.cost ≤ b.cost) := by
  haveI : IsTotal Enriched (fun a b : Enriched => a.cost ≤ b.cost) :=
    ⟨fun a b => Nat.le_total a.cost b.cost⟩
  haveI : IsTrans Enriched (fun a b : Enriched => a.cost ≤ b.cost) :=
    ⟨fun a b c => Nat.le_trans⟩
  exact List.sorted_insertionSort _ l

lemma sortByCost_filter (l : List Enriched) (k : Nat) :
    (sortByCost l).filter (fun c => c.cost == k) = l.filter (fun c => c.cost == k) := by
  haveI : IsTotal Enriched (fun a b : Enriched => a.cost ≤ b.cost) :=
    ⟨fun a b => Nat.le_total a.cost b.cost⟩
  haveI : IsTrans Enriched (fun a b : Enriched => a.cost ≤ b.cost) :=
    ⟨fun a b c => Nat.le_trans⟩
  have hperm : List.Perm (sortByCost l) l := List.perm_insertionSort _ l
  have hsub : List.Sublist (l.filter (fun c => c.cost == k)) (sortByCost l) := by
    unfold sortByCost
    apply List.sublist_insertionSort
    · apply List.pairwise_of_forall_mem_list
      intro a ha b hb
      have hak := (List.mem_filter.mp ha).2
      have hbk := (List.mem_filter.mp hb).2
      simp only [beq_iff_eq] at hak hbk
      omega
    · exact List.filter_sublist l
  have h2 : List.Sublist (l.filter (fun c => c.cost == k))
      ((sortByCost l).filter (fun c => c.cost == k)) := by
    have h3 := hsub.filter (fun c => c.cost == k)
    rwa [List.filter_filter, show (fun (a : Enriched) => (a.cost == k) && (a.cost == k))
      = (fun a : Enriched => a.cost == k) from funext (fun a => Bool.and_self _)] at h3
  have hlen : ((sortByCost l).filter (fun c => c.cost == k)).length
      = (l.filter (fun c => c.cost == k)).length := (hperm.filter _).length_eq
  exact (h2.eq_of_length hlen.symm).symm

lemma blockHeight_ge_two (db : List (Str × DbInfo)) (maxC : Nat) (e : MetaEntry) :
    2 ≤ blockHeight db maxC e :=
  Nat.le_trans (Nat.le_add_right 2 _) (Nat.le_max_left _ _)

lemma layoutLoop_heights (cats : Catalogs) (db : List (Str × DbInfo)) (maxC totalCols : Nat) :
    ∀ (meta : List MetaEntry) (cur : Nat),
      (layoutLoop cats db maxC totalCols meta cur).2.map (fun b => b.2.1)
        = meta.map (fun e => max (2 + maxItemsInComp (enrichedChamps db maxC e))
            ((synList e).length * 2)) := by
  intro meta
  induction meta with
  | nil => intro cur; rfl
  | cons e es ih =>
    intro cur
    simp only [layoutLoop, List.map_cons, ih]
    rfl

lemma layoutLoop_blocks_bounds (cats : Catalogs) (db : List (Str × DbInfo))
    (maxC totalCols : Nat) :
    ∀ (meta : List MetaEntry) (cur : Nat),
      (∀ b ∈ (layoutLoop cats db maxC totalCols meta cur).2, cur ≤ b.1 ∧ 2 ≤ b.2.1) ∧
      (layoutLoop cats db maxC totalCols meta cur).2.Pairwise (fun x y => x.1 < y.1) := by
  intro meta
  induction meta with
  | nil =>
    intro cur
    exact ⟨fun b hb => absurd hb (List.not_mem_nil b), List.Pairwise.nil⟩
  | cons e es ih =>
    intro cur
    obtain ⟨ihb, ihp⟩ := ih (cur + blockHeight db maxC e)
    simp only [layoutLoop]
    constructor
    · intro b hb
      rcases List.mem_cons.mp hb with rfl | hb'
      · exact ⟨Nat.le_refl _, blockHeight_ge_two db maxC e⟩
      · have h1 := ihb b hb'
        have h2 := blockHeight_ge_two db maxC e
        exact ⟨by omega, h1.2⟩
    · refine List.Pairwise.cons (fun y hy => ?_) ihp
      have h1 := (ihb y hy).1
      have h2 := blockHeight_ge_two db maxC e
      show cur < y.1
      omega

lemma compRows_length (cats : Catalogs) (db : List (Str × DbInfo)) (maxC totalCols : Nat)
    (e : MetaEntry) :
    (compRows cats db maxC totalCols e).length = blockHeight db maxC e := by
  have h2 := blockHeight_ge_two db maxC e
  simp only [compRows, List.length_cons, List.length_map, List.length_range]
  omega

lemma compRows_row_lengths (cats : Catalogs) (db : List (Str × DbInfo)) (maxC totalCols : Nat)
    (e : MetaEntry) :
    ∀ row ∈ compRows cats db maxC totalCols e, row.length = totalCols := by
  intro row hrow
  simp only [compRows, List.mem_cons] at hrow
  rcases hrow with rfl | rfl | hrow
  · unfold buildRowImage
    rw [length_setEach, length_rowImageBase]
  · unfold buildRowNames
    rw [length_setEach, length_rowNamesBase]
  · obtain ⟨r, _, rfl⟩ := List.mem_map.mp hrow
    unfold buildRowExtra
    rw [length_setEach, length_rowExtraBase]

lemma layoutLoop_rows (cats : Catalogs) (db : List (Str × DbInfo)) (maxC totalCols : Nat) :
    ∀ (meta : List MetaEntry) (cur : Nat),
      (∀ row ∈ (layoutLoop cats db maxC totalCols meta cur).1, row.length = totalCols) ∧
      (layoutLoop cats db maxC totalCols meta cur).1.length
        = ((layoutLoop cats db maxC totalCols meta cur).2.map (fun b => b.2.1)).sum := by
  intro meta
  induction meta with
  | nil =>
    intro cur
    exact ⟨fun row hrow => absurd hrow (List.not_mem_nil row), rfl⟩
  | cons e es ih =>
    intro cur
    obtain ⟨ihr, ihl⟩ := ih (cur + blockHeight db maxC e)
    simp only [layoutLoop]
    constructor
    · intro row hrow
      rcases List.mem_append.mp hrow with hrow' | hrow'
      · exact compRows_row_lengths cats db maxC totalCols e row hrow'
      · exact ihr row hrow'
    · simp only [List.length_append, List.map_cons, List.sum_cons, ihl, compRows_length]

/-- Empty external catalogs with a fixed Data Dragon version, used by the
    concrete evaluations. -/
def cats1 : Catalogs := ⟨str "15.1.1", [], [], []⟩

/-- A champions_db with one champion whose single item cannot resolve
    against the empty item catalog. -/
def db1 : List (Str × DbInfo) := [(str "X", ⟨none, some [str "Foo"]⟩)]

/-- Composition with one champion and no synergies. -/
def entry1 : MetaEntry := ⟨none, none, none, none, none, some [⟨str "X", none⟩]⟩

/-- Composition with zero champions and no synergies. -/
def entryZero : MetaEntry := ⟨none, none, none, none, none, some []⟩

/-- A champions_db with three champions holding 3, 1 and 0 items. -/
def db3 : List (Str × DbInfo) :=
  [(str "A", ⟨some 1, some [str "I1", str "I2", str "I3"]⟩),
   (str "B", ⟨some 2, some [str "I4"]⟩),
   (str "C", ⟨some 3, some []⟩)]

/-- Composition with the three champions of db3 and two synergies. -/
def entry3 : MetaEntry :=
  ⟨none, none, none, none, some (Sum.inr [str "S1", str "S2"]),
   some [⟨str "A", none⟩, ⟨str "B", none⟩, ⟨str "C", none⟩]⟩

/-- C1 amended: the height of every block equals max(2 + maxItemRowCount,
    2 * synergyCount), where maxItemRowCount counts the items listed in
    champions_db for the champions of the block whether or not they resolve to an
    image; and the concrete composition with item counts 3, 1, 0 and two
    synergies yields height 5. -/
theorem C1_block_height_formula :
    (∀ (cats : Catalogs) (db : List (Str × DbInfo)) (maxC totalCols : Nat)
        (meta : List MetaEntry) (cur : Nat),
      (layoutLoop cats db maxC totalCols meta cur).2.map (fun b => b.2.1)
        = meta.map (fun e => max (2 + maxItemsInComp (enrichedChamps db maxC e))
            ((synList e).length * 2))) ∧
    (update_google_sheet_layout cats1 db3 [entry3] 8).blocks.map (fun b => (b.1, b.2.1))
        = [(2, 5)] :=
  ⟨fun cats db maxC totalCols meta cur => layoutLoop_heights cats db maxC totalCols meta cur,
   by decide⟩

/-- C1 counterexample to the claim as stated: with one champion holding a
    single unresolvable item and no synergies, the block height is 3, while
    the formula of the claim over resolved items yields max(2 + 0, 2 * 0) = 2;
    the unresolvable item does produce a blank trailing row. -/
theorem C1_resolved_items_counterexample :
    (update_google_sheet_layout cats1 db1 [entry1] 8).blocks.map (fun b => (b.1, b.2.1))
        = [(2, 3)] ∧
    maxResolvedItems cats1 (enrichedChamps db1 8 entry1) = 0 ∧
    max (2 + maxResolvedItems cats1 (enrichedChamps db1 8 entry1))
        ((synList entry1).length * 2) = 2 ∧
    (2 : Nat) ≠ 3 ∧
    (update_google_sheet_layout cats1 db1 [entry1] 8).rows.getD 3 []
        = List.replicate 13 [] := by
  refine ⟨by decide, by decide, by decide, by decide, by decide⟩

/-- C7 amended: layout construction is total and always produces a
    structurally valid grid: every row, the header included, has exactly the
    computed column count, every block is at least two rows high, and the
    rows are exactly the header followed by the blocks stacked with no gaps. -/
theorem C7_layout_total_structurally_valid (cats : Catalogs) (db : List (Str × DbInfo))
    (meta : List MetaEntry) (floor : Nat) :
    (∀ row ∈ (update_google_sheet_layout cats db meta floor).rows,
      row.length = 6 + max (maxChampsData meta) floor - 1) ∧
    (∀ b ∈ (update_google_sheet_layout cats db meta floor).blocks, 2 ≤ b.2.1) ∧
    (update_google_sheet_layout cats db meta floor).rows.length
      = 1 + ((update_google_sheet_layout cats db meta floor).blocks.map (fun b => b.2.1)).sum := by
  refine ⟨?_, ?_, ?_⟩
  · intro row hrow
    simp only [update_google_sheet_layout, List.mem_cons] at hrow
    rcases hrow with rfl | hrow
    · simp [buildHeader]
    · exact (layoutLoop_rows cats db _ _ meta 2).1 row hrow
  · intro b hb
    simp only [update_google_sheet_layout] at hb
    exact ((layoutLoop_blocks_bounds cats db _ _ meta 2).1 b hb).2
  · simp only [update_google_sheet_layout, List.length_cons]
    rw [(layoutLoop_rows cats db _ _ meta 2).2]
    omega

/-- Witness for C7 at a concrete run with one composition. -/
theorem C7_layout_total_structurally_valid_witness :
    (buildHeader 13).length = 6 + max (maxChampsData [entry1]) 8 - 1 ∧
    2 ≤ ((2, 3, [(⟨str "X", 1, 2, [str "Foo"]⟩ : Enriched)]) : Nat × Nat × List Enriched).2.1 :=
  ⟨(C7_layout_total_structurally_valid cats1 db1 [entry1] 8).1 (buildHeader 13) (by decide),
   (C7_layout_total_structurally_valid cats1 db1 [entry1] 8).2.1
     (2, 3, [⟨str "X", 1, 2, [str "Foo"]⟩]) (by decide)⟩

/-- C7 counterexample to the claim as stated: a composition with zero
    champions does not fail layout construction; it produces a normal block
    of height 2 inside a structurally valid grid. -/
theorem C7_zero_champions_counterexample :
    (update_google_sheet_layout cats1 db1 [entryZero] 8).blocks = [(2, 2, [])] ∧
    (update_google_sheet_layout cats1 db1 [entryZero] 8).rows.length = 3 ∧
    ∀ row ∈ (update_google_sheet_layout cats1 db1 [entryZero] 8).rows, row.length = 13 := by
  refine ⟨by decide, by decide, by decide⟩

lemma enrichedChamps_length_le (db : List (Str × DbInfo)) (maxC : Nat) (e : MetaEntry) :
    (enrichedChamps db maxC e).length ≤ maxC := by
  unfold enrichedChamps
  rw [List.length_take]
  exact Nat.min_le_left _ _

/-- C8: before layout the champion sequence of every composition is sorted
    ascending by cost by a stable sort: the sorted list is pairwise ordered
    by cost, champions of any one cost keep their original relative order,
    and the portrait row places the portrait cell of champion i at column 5 + i,
    left to right in the sorted order. -/
theorem C8_champions_sorted_stable (db : List (Str × DbInfo)) (maxC : Nat)
    (e : MetaEntry) (cats : Catalogs) :
    (sortByCost ((e.champions.getD []).map (enrichChamp db))).Pairwise
        (fun a b => a.cost ≤ b.cost) ∧
    (∀ k : Nat,
      (sortByCost ((e.champions.getD []).map (enrichChamp db))).filter (fun c => c.cost == k)
        = ((e.champions.getD []).map (enrichChamp db)).filter (fun c => c.cost == k)) ∧
    (∀ i, i < (enrichedChamps db maxC e).length →
      (buildRowImage cats (6 + maxC - 1) e (synList e) (enrichedChamps db maxC e))[5 + i]?
        = (portraitCell cats ((enrichedChamps db maxC e).getD i ⟨[], 1, 2, []⟩)).elim
            (some []) some) := by
  refine ⟨sortByCost_sorted _, fun k => sortByCost_filter _ k, fun i hi => ?_⟩
  have hlenc : (enrichedChamps db maxC e).length ≤ maxC := enrichedChamps_length_le db maxC e
  unfold buildRowImage
  have hmap : i < ((enrichedChamps db maxC e).map (portraitCell cats)).length := by
    rw [List.length_map]; exact hi
  have hbound : 5 + ((enrichedChamps db maxC e).map (portraitCell cats)).length
      ≤ (rowImageBase (6 + maxC - 1) e (synList e)).length := by
    rw [List.length_map, length_rowImageBase]; omega
  rw [setEach_getElem?_at _ _ 5 i hmap hbound]
  have hc : ((enrichedChamps db maxC e).map (portraitCell cats)).getD i none
      = portraitCell cats ((enrichedChamps db maxC e).getD i ⟨[], 1, 2, []⟩) := by
    rw [List.getD_eq_getElem?_getD, List.getElem?_map, List.getD_eq_getElem?_getD,
      List.getElem?_eq_getElem hi]
    rfl
  have hb : (rowImageBase (6 + maxC - 1) e (synList e))[5 + i]? = some [] := by
    rw [rowImageBase_getElem?_ge5 _ _ _ _ (by omega), List.getElem?_replicate,
      if_pos (by omega)]
  rw [hc, hb]

/-- Witness for C8 at the three-champion composition. -/
theorem C8_champions_sorted_stable_witness :
    0 < (enrichedChamps db3 8 entry3).length ∧
    (buildRowImage cats1 (6 + 8 - 1) entry3 (synList entry3) (enrichedChamps db3 8 entry3))[5 + 0]?
      = (portraitCell cats1 ((enrichedChamps db3 8 entry3).getD 0 ⟨[], 1, 2, []⟩)).elim
          (some []) some :=
  ⟨by decide, (C8_champions_sorted_stable db3 8 entry3 cats1).2.2 0 (by decide)⟩

/-- C10: a champion absent from champions_db is enriched with the default
    cost 1 and an empty item list; in the cost-sorted champion list every
    cost-1 champion precedes every champion of cost greater than 1; and a
    champion with no items gets an empty cell in every extra row. -/
theorem C10_missing_champion_defaults (db : List (Str × DbInfo)) (c : ChampIn)
    (h : dbGet db c.name = none) :
    (enrichChamp db c).cost = 1 ∧ (enrichChamp db c).items = [] ∧
    (∀ (maxC : Nat) (e : MetaEntry) (i j : Nat),
      i < (enrichedChamps db maxC e).length → j < (enrichedChamps db maxC e).length →
      ((enrichedChamps db maxC e).getD i ⟨[], 1, 2, []⟩).cost = 1 →
      1 < ((enrichedChamps db maxC e).getD j ⟨[], 1, 2, []⟩).cost → i < j) ∧
    (∀ (cats : Catalogs) (totalCols : Nat) (syns : List Str) (champs : List Enriched)
        (r i : Nat), i < champs.length → 5 + champs.length ≤ totalCols →
      (champs.getD i ⟨[], 1, 2, []⟩).items = [] →
      (buildRowExtra cats totalCols syns champs r)[5 + i]? = some []) := by
  refine ⟨by unfold enrichChamp; rw [h]; rfl, by unfold enrichChamp; rw [h]; rfl, ?_, ?_⟩
  · intro maxC e i j hi hj h1 hj2
    by_contra hij
    push_neg at hij
    have hp : (enrichedChamps db maxC e).Pairwise (fun a b => a.cost ≤ b.cost) :=
      List.Pairwise.sublist (List.take_sublist _ _)
        (sortByCost_sorted ((e.champions.getD []).map (enrichChamp db)))
    rw [List.getD_eq_getElem?_getD, List.getElem?_eq_getElem hi] at h1
    rw [List.getD_eq_getElem?_getD, List.getElem?_eq_getElem hj] at hj2
    simp only [Option.getD_some] at h1 hj2
    rcases Nat.lt_or_ge j i with hlt | hge
    · have hrel := List.pairwise_iff_getElem.mp hp j i hj hi hlt
      omega
    · have : i = j := by omega
      subst this
      omega
  · intro cats totalCols syns champs r i hi hcols hitems
    unfold buildRowExtra
    have hmap : i < (champs.map (itemCell cats r)).length := by
      rw [List.length_map]; exact hi
    have hbound : 5 + (champs.map (itemCell cats r)).length
        ≤ (rowExtraBase totalCols syns r).length := by
      rw [List.length_map, length_rowExtraBase]; omega
    rw [setEach_getElem?_at _ _ 5 i hmap hbound]
    have hc : (champs.map (itemCell cats r)).getD i none
        = itemCell cats r (champs.getD i ⟨[], 1, 2, []⟩) := by
      rw [List.getD_eq_getElem?_getD, List.getElem?_map, List.getD_eq_getElem?_getD,
        List.getElem?_eq_getElem hi]
      rfl
    have hcell : itemCell cats r (champs.getD i ⟨[], 1, 2, []⟩) = none := by
      unfold itemCell
      rw [hitems]
      simp
    rw [hc, hcell]
    show (rowExtraBase totalCols syns r)[5 + i]? = some []
    rw [rowExtraBase_getElem?_ge5 _ _ _ _ (by omega), List.getElem?_replicate,
      if_pos (by omega)]

/-- Witness for C10: a champion name absent from db1, and the empty extra
    cell of an itemless champion. -/
theorem C10_missing_champion_defaults_witness :
    dbGet db1 (str "Y") = none ∧
    (enrichChamp db1 ⟨str "Y", none⟩).cost = 1 ∧
    (enrichChamp db1 ⟨str "Y", none⟩).items = [] ∧
    (buildRowExtra cats1 13 [] [⟨str "Y", 1, 2, []⟩] 0)[5 + 0]? = some [] :=
  ⟨by decide,
   (C10_missing_champion_defaults db1 ⟨str "Y", none⟩ (by decide)).1,
   (C10_missing_champion_defaults db1 ⟨str "Y", none⟩ (by decide)).2.1,
   (C10_missing_champion_defaults db1 ⟨str "Y", none⟩ (by decide)).2.2.2 cats1 13 []
     [⟨str "Y", 1, 2, []⟩] 0 0 (by decide) (by decide) (by decide)⟩

/-- The mergeCells requests of one full update_google_sheet run. -/
def update_google_sheet_merge_requests (cats : Catalogs) (db : List (Str × DbInfo))
    (meta : List MetaEntry) (floor : Nat) : List GridRange :=
  update_google_sheet_merges (6 + max (maxChampsData meta) floor - 1)
    (update_google_sheet_layout cats db meta floor).blocks

lemma count_blockMergeRanges_self (R H c : Nat) (hc : c < 4) :
    (blockMergeRanges R H).count ⟨R - 1, R - 1 + H, c, c + 1⟩ = 1 := by
  unfold blockMergeRanges
  rw [show List.range 4 = [0, 1, 2, 3] from rfl]
  interval_cases c <;>
    simp [List.count_cons, beq_iff_eq, GridRange.mk.injEq]

lemma count_blockMergeRanges_ne (R H c R' H' : Nat) (h2 : 2 ≤ R) (h2' : 2 ≤ R')
    (hne : R' ≠ R) :
    (blockMergeRanges R' H').count ⟨R - 1, R - 1 + H, c, c + 1⟩ = 0 := by
  rw [List.count_eq_zero]
  intro hmem
  unfold blockMergeRanges at hmem
  obtain ⟨c', _, heq⟩ := List.mem_map.mp hmem
  have hrow := congrArg GridRange.startRow heq
  simp only at hrow
  omega

lemma count_mergeFold_zero (R H c : Nat) :
    ∀ (blocks : List (Nat × Nat × List Enriched)),
      2 ≤ R →
      (∀ y ∈ blocks, 2 ≤ y.1 ∧ y.1 ≠ R) →
      (blocks.foldr (fun b acc => blockMergeRanges b.1 b.2.1 ++ acc) []).count
        ⟨R - 1, R - 1 + H, c, c + 1⟩ = 0 := by
  intro blocks
  induction blocks with
  | nil => intro _ _; rfl
  | cons x xs ih =>
    intro h2 hy
    simp only [List.foldr_cons, List.count_append]
    rw [ih h2 (fun y hy' => hy y (List.mem_cons_of_mem x hy')),
      count_blockMergeRanges_ne R H c x.1 x.2.1 h2 (hy x (List.mem_cons_self x xs)).1
        (hy x (List.mem_cons_self x xs)).2]

lemma count_mergeFold_mem (R H c : Nat) (hc : c < 4) :
    ∀ (blocks : List (Nat × Nat × List Enriched)),
      (∀ y ∈ blocks, 2 ≤ y.1) →
      blocks.Pairwise (fun x y => x.1 < y.1) →
      ∀ b ∈ blocks, b.1 = R → b.2.1 = H →
      (blocks.foldr (fun b acc => blockMergeRanges b.1 b.2.1 ++ acc) []).count
        ⟨R - 1, R - 1 + H, c, c + 1⟩ = 1 := by
  intro blocks
  induction blocks with
  | nil => intro _ _ b hb; exact absurd hb (List.not_mem_nil b)
  | cons x xs ih =>
    intro h2 hpw b hb hR hH
    simp only [List.foldr_cons, List.count_append]
    have hxR : 2 ≤ R := hR ▸ h2 b hb
    rcases List.mem_cons.mp hb with rfl | hb'
    · rw [hR, hH, count_blockMergeRanges_self R H c hc,
        count_mergeFold_zero R H c xs hxR (fun y hy => ⟨h2 y (List.mem_cons_of_mem b hy),
          by have := (List.pairwise_cons.mp hpw).1 y hy; omega⟩)]
    · have hxne : x.1 ≠ R := by
        have := (List.pairwise_cons.mp hpw).1 b hb'
        omega
      rw [count_blockMergeRanges_ne R H c x.1 x.2.1 hxR (h2 x (List.mem_cons_self x xs)) hxne,
        ih (fun y hy => h2 y (List.mem_cons_of_mem x hy)) (List.pairwise_cons.mp hpw).2
          b hb' hR hH]

lemma mergeFold_startCol_lt (blocks : List (Nat × Nat × List Enriched)) :
    ∀ r ∈ blocks.foldr (fun b acc => blockMergeRanges b.1 b.2.1 ++ acc) [], r.startCol < 4 := by
  induction blocks with
  | nil => intro r hr; exact absurd hr (List.not_mem_nil r)
  | cons x xs ih =>
    intro r hr
    simp only [List.foldr_cons] at hr
    rcases List.mem_append.mp hr with h | h
    · unfold blockMergeRanges at h
      obtain ⟨c', hc', rfl⟩ := List.mem_map.mp h
      exact List.mem_range.mp hc'
    · exact ih r h

/-- C2 amended: for every block of height H starting at sheet row R, each of
    the FOUR leading columns A to D (tier, title, early picks, carries) has
    exactly one vertical merge request spanning rows [R-1, R-1+H) in
    zero-based coordinates; the fifth fixed column, the synergies column, is
    never merged, because its rows hold distinct synergy icons and labels. -/
theorem C2_merge_coverage (cats : Catalogs) (db : List (Str × DbInfo))
    (meta : List MetaEntry) (floor : Nat) :
    (∀ b ∈ (update_google_sheet_layout cats db meta floor).blocks, ∀ c, c < 4 →
      (update_google_sheet_merge_requests cats db meta floor).count
        ⟨b.1 - 1, b.1 - 1 + b.2.1, c, c + 1⟩ = 1) ∧
    (∀ r ∈ update_google_sheet_merge_requests cats db meta floor, r.startCol ≠ 4) := by
  have hb := layoutLoop_blocks_bounds cats db (max (maxChampsData meta) floor)
    (6 + max (maxChampsData meta) floor - 1) meta 2
  constructor
  · intro b hbm c hc
    simp only [update_google_sheet_layout] at hbm
    unfold update_google_sheet_merge_requests update_google_sheet_merges
    rw [List.count_cons]
    have hhne : ((⟨0, 1, 5, 6 + max (maxChampsData meta) floor - 1⟩ : GridRange)
        == ⟨b.1 - 1, b.1 - 1 + b.2.1, c, c + 1⟩) = false := by
      simp only [beq_eq_false_iff_ne, ne_eq, GridRange.mk.injEq]
      intro hx
      omega
    rw [hhne]
    simp only [update_google_sheet_layout]
    rw [count_mergeFold_mem b.1 b.2.1 c hc _
      (fun y hy => by have := (hb.1 y hy).1; omega) hb.2 b hbm rfl rfl]
    simp
  · intro r hr
    unfold update_google_sheet_merge_requests update_google_sheet_merges at hr
    rcases List.mem_cons.mp hr with rfl | hr'
    · simp
    · have := mergeFold_startCol_lt _ r hr'
      omega

/-- Witness for C2 at a concrete one-composition run. -/
theorem C2_merge_coverage_witness :
    (update_google_sheet_merge_requests cats1 db1 [entry1] 8).count ⟨1, 4, 0, 1⟩ = 1 ∧
    ∀ r ∈ update_google_sheet_merge_requests cats1 db1 [entry1] 8, r.startCol ≠ 4 :=
  ⟨(C2_merge_coverage cats1 db1 [entry1] 8).1
      (2, 3, [⟨str "X", 1, 2, [str "Foo"]⟩]) (by decide) 0 (by decide),
   (C2_merge_coverage cats1 db1 [entry1] 8).2⟩

/-- C2 counterexample to the claim as stated: in a concrete run the
    synergies column, the fifth fixed column, has no merge request spanning
    its block, so it is not true that all five fixed leading columns carry
    exactly one full-height merge. -/
theorem C2_five_columns_counterexample :
    ¬(∀ c, c < 5 →
      (update_google_sheet_merge_requests cats1 db1 [entry1] 8).count
        ⟨1, 4, c, c + 1⟩ = 1) := by
  decide
